import Mathlib

/-!
Verification of the `better_calendar` repository (src/better_calendar/).

Shallow embedding conventions:
* A date is its day count since 1970-01-01 (an `Int`): the unit of
  `numpy.datetime64[D]`, which the source uses as its internal date type.
  The output-formatting layer (`_from_internal_date`) is a bijective
  re-rendering of the same date and is modelled as the identity.
* `DateUniverse` keeps the source's `start64`/`end64` fields; its `days`
  array is `days[i] = start64 + i` (`date_universe.py`, `__post_init__`),
  so the array is represented by the function `DateUniverse.day`.
* The derived per-day arrays (`weekday`, `year`, `month`, `month_key`,
  `quarter`, `semester`, `week`, `iso_year`) are pure functions of the day
  index; the source computes them with numpy datetime64 casts and Python's
  `date.isocalendar()`, whose documented proleptic-Gregorian / ISO-8601
  semantics are implemented below by integer arithmetic.
* A boolean numpy array is a `Nat → Bool` function (read only at indices
  below the universe length); an index array is a `List Nat`.
* Code that raises an exception returns `none`; `np.searchsorted` on the
  sorted `business_position` array is `ssLeft`/`ssRight`.
-/

namespace BetterCalendar

/-- Proleptic-Gregorian conversion from a day count since 1970-01-01 to
(year, month, day); the semantics of the `datetime64[Y]` / `datetime64[M]`
casts used by `date_universe.py` for its `year` and `month` arrays. -/
def civilFromDays (z : Int) : Int × Int × Int :=
  let zs := z + 719468
  let era := Int.fdiv zs 146097
  let doe := zs - era * 146097
  let yoe := (doe - doe / 1460 + doe / 36524 - doe / 146096) / 365
  let y := yoe + era * 400
  let doy := doe - (365 * yoe + yoe / 4 - yoe / 100)
  let mp := (5 * doy + 2) / 153
  let d := doy - (153 * mp + 2) / 5 + 1
  let m := mp + (if mp < 10 then 3 else -9)
  (y + (if m ≤ 2 then 1 else 0), m, d)

/-- Inverse conversion: day count since 1970-01-01 of a Gregorian date. -/
def daysFromCivil (y m d : Int) : Int :=
  let yy := if m ≤ 2 then y - 1 else y
  let era := Int.fdiv yy 400
  let yoe := yy - era * 400
  let mp := Int.emod (m + 9) 12
  let doy := (153 * mp + 2) / 5 + d - 1
  let doe := yoe * 365 + yoe / 4 - yoe / 100 + doy
  era * 146097 + doe - 719468

/-- Weekday (Monday = 1 .. Sunday = 7) of a day count, by the same integer
arithmetic as `DateUniverse.weekday`: `(days_int + 3) % 7 + 1`. -/
def weekdayNum (z : Int) : Int := Int.emod (z + 3) 7 + 1

/-- ISO-8601 (iso_year, iso_week) of a day count: the semantics of Python's
`date.isocalendar()` used by `date_universe.py` for its `iso_year` and
`week` arrays.  A date belongs to the week of its Thursday; the week number
is the ordinal of that Thursday's week within its year. -/
def isoPair (z : Int) : Int × Int :=
  let thu := z + (4 - weekdayNum z)
  let iy := (civilFromDays thu).1
  let jan1 := daysFromCivil iy 1 1
  (iy, (thu - jan1) / 7 + 1)

/-- `DateUniverse` of `date_universe.py`: the contiguous day range
[start64, end64], with `days[i] = start64 + i`. -/
structure DateUniverse where
  start64 : Int
  end64 : Int

/-- Number of days: `n_days = (end64 - start64) + 1` (`__post_init__`). -/
def DateUniverse.len (u : DateUniverse) : Nat := (u.end64 - u.start64 + 1).toNat

/-- The `days` array: `days[i] = start64 + i`. -/
def DateUniverse.day (u : DateUniverse) (i : Nat) : Int := u.start64 + i

/-- `DateUniverse.locate`: index `i` with `days[i] = d`, erroring outside
the universe (`i < 0 or i >= len(self)`). -/
def DateUniverse.locate (u : DateUniverse) (d : Int) : Option Nat :=
  let i := d - u.start64
  if 0 ≤ i ∧ i < (u.len : Int) then some i.toNat else none

/-- The `weekday` array: `((days_int + 3) % 7 + 1)` (Monday = 1). -/
def DateUniverse.weekday (u : DateUniverse) (i : Nat) : Int := weekdayNum (u.day i)

/-- The `year` array: calendar year of `days[i]`. -/
def DateUniverse.year (u : DateUniverse) (i : Nat) : Int := (civilFromDays (u.day i)).1

/-- The `month` array: calendar month (1..12) of `days[i]`. -/
def DateUniverse.month (u : DateUniverse) (i : Nat) : Int := (civilFromDays (u.day i)).2.1

/-- The `month_key` array: `year * 12 + (month - 1)`. -/
def DateUniverse.month_key (u : DateUniverse) (i : Nat) : Int := u.year i * 12 + (u.month i - 1)

/-- The `quarter` array: `(month - 1) // 3 + 1`. -/
def DateUniverse.quarter (u : DateUniverse) (i : Nat) : Int := (u.month i - 1) / 3 + 1

/-- The `semester` array: `(month - 1) // 6 + 1`. -/
def DateUniverse.semester (u : DateUniverse) (i : Nat) : Int := (u.month i - 1) / 6 + 1

/-- The `iso_year` array: ISO week-numbering year of `days[i]`. -/
def DateUniverse.iso_year (u : DateUniverse) (i : Nat) : Int := (isoPair (u.day i)).1

/-- The `week` array: ISO week number (1..53) of `days[i]`. -/
def DateUniverse.week (u : DateUniverse) (i : Nat) : Int := (isoPair (u.day i)).2

/-- A `Calendar` (calendar.py): a `DateUniverse` plus the boolean
`business_mask` over its indices.  The stored `business_position` field is
always `np.flatnonzero(business_mask)` (recomputed at every mutation), so
it is represented by the derived function `business_position` below. -/
structure Calendar where
  univ : DateUniverse
  business_mask : Nat → Bool

/-- `self.start_date` of a calendar (equal to the universe start). -/
def Calendar.start_date (c : Calendar) : Int := c.univ.start64

/-- `self.end_date` of a calendar (equal to the universe end). -/
def Calendar.end_date (c : Calendar) : Int := c.univ.end64

/-- `business_position = np.flatnonzero(business_mask)`: the ascending list
of indices at which the mask is true. -/
def business_position (c : Calendar) : List Nat :=
  (List.range c.univ.len).filter c.business_mask

/-- `DefaultMaskBuilder.build_mask` (providers.py): business iff the
weekday is neither 6 nor 7. -/
def default_mask (u : DateUniverse) : Nat → Bool :=
  fun i => decide (u.weekday i ≠ 6) && decide (u.weekday i ≠ 7)

/-- A Calendar with the weekend-only (code "DEFAULT") mask. -/
def mkWeekendCalendar (s e : Int) : Calendar :=
  { univ := { start64 := s, end64 := e }
    business_mask := default_mask { start64 := s, end64 := e } }

/-- `np.searchsorted(xs, v, side="left")` for an ascending `xs`:
the number of entries strictly below `v`. -/
def ssLeft (xs : List Nat) (v : Nat) : Nat :=
  (xs.filter (fun x => decide (x < v))).length

/-- `np.searchsorted(xs, v, side="right")` for an ascending `xs`:
the number of entries at most `v`. -/
def ssRight (xs : List Nat) (v : Nat) : Nat :=
  (xs.filter (fun x => decide (x ≤ v))).length

/-- `Calendar._range_indices`, with `None` arguments defaulting to the
universe bounds; errors when the located end precedes the start. -/
def range_indices (c : Calendar) (s e : Option Int) : Option (Nat × Nat) :=
  let sv := s.getD c.univ.start64
  let ev := e.getD c.univ.end64
  match c.univ.locate sv, c.univ.locate ev with
  | some i0, some i1 => if i1 < i0 then none else some (i0, i1)
  | _, _ => none

/-- `Calendar.is_business`: mask value at the located index. -/
def is_business (c : Calendar) (d : Int) : Option Bool :=
  (c.univ.locate d).map c.business_mask

/-- The slice `business_position[left:right]` with
`left = searchsorted(pos, i0, "left")`, `right = searchsorted(pos, i1, "right")`,
shared by `business_days` and `schedule_business`. -/
def business_pos_slice (c : Calendar) (i0 i1 : Nat) : List Nat :=
  let pos := business_position c
  (pos.take (ssRight pos i1)).drop (ssLeft pos i0)

/-- `Calendar.business_days`: dates of the business positions inside the
requested range. -/
def business_days (c : Calendar) (s e : Option Int) : Option (List Int) :=
  match range_indices c s e with
  | none => none
  | some (i0, i1) => some ((business_pos_slice c i0 i1).map c.univ.day)

/-- `Calendar.non_business_days`: dates of `np.arange(i0, i1 + 1)` filtered
to the positions not in `business_position`. -/
def non_business_days (c : Calendar) (s e : Option Int) : Option (List Int) :=
  match range_indices c s e with
  | none => none
  | some (i0, i1) =>
      let all_pos := List.range' i0 (i1 + 1 - i0)
      let bpos := business_position c
      some ((all_pos.filter (fun i => !(bpos.contains i))).map c.univ.day)

/-- ASCII lower-casing of a character, the semantics of Python's
`str.lower()` on the ASCII flag tokens compared by `_inclusive_flags`. -/
def asciiLowerChar (ch : Char) : Char :=
  if 65 ≤ ch.toNat ∧ ch.toNat ≤ 90 then Char.ofNat (ch.toNat + 32) else ch

/-- Lower-casing of a string (`inclusive.lower()` in `_inclusive_flags`). -/
def strLower (s : String) : String := ⟨s.data.map asciiLowerChar⟩

/-- `Calendar._inclusive_flags`: (include-start, include-end) from the
lower-cased `inclusive` string; errors on anything else. -/
def inclusive_flags (inclusive : String) : Option (Bool × Bool) :=
  let inc := strLower inclusive
  if inc = "both" then some (true, true)
  else if inc = "left" then some (true, false)
  else if inc = "right" then some (false, true)
  else if inc = "none" then some (false, false)
  else none

/-- The body of `Calendar.days_between` after both dates are located:
the `end < start` check, the inclusivity flags, and the two counting modes,
each clamped at zero. -/
def days_between_core (c : Calendar) (i1 i2 : Nat) (type inclusive : String) : Option Int :=
  if i2 < i1 then none
  else
    match inclusive_flags inclusive with
    | none => none
    | some (inc_start, inc_end) =>
        if type = "calendar" then
          let cnt : Int := (i2 : Int) - (i1 : Int) + 1
          let cnt := if inc_start then cnt else cnt - 1
          let cnt := if inc_end then cnt else cnt - 1
          some (max cnt 0)
        else if type = "business" then
          let bpos := business_position c
          let left := if inc_start then ssLeft bpos i1 else ssRight bpos i1
          let right := if inc_end then ssRight bpos i2 else ssLeft bpos i2
          some (max ((right : Int) - (left : Int)) 0)
        else none

/-- `Calendar.days_between`: calendar-day or business-day count between the
two dates under the inclusivity flags, clamped at zero. -/
def days_between (c : Calendar) (s e : Option Int) (type inclusive : String) : Option Int :=
  let sv := s.getD c.start_date
  let ev := e.getD c.end_date
  match c.univ.locate sv, c.univ.locate ev with
  | some i1, some i2 => days_between_core c i1 i2 type inclusive
  | _, _ => none

/-- `Calendar.offset_business_days`: strict offset by `n` business days via
binary search on `business_position`; `n = 0` returns the date unchanged.
After the explicit bounds check the located index is `(d - start).toNat`;
the source's local `k` is written out in place in each branch.  In the
backward branch the read index is below `bpos.length` whenever it is
nonnegative (`ssLeft ≤ length` and `n < 0`), so `getD` never pads. -/
def offset_business_days (c : Calendar) (d : Int) (n : Int) : Option Int :=
  if d < c.start_date ∨ c.end_date < d then none
  else if n = 0 then some d
  else if 0 < n then
    if ((business_position c).length : Int) ≤
        (ssRight (business_position c) (d - c.start_date).toNat : Int) + (n - 1) then none
    else some (c.univ.day ((business_position c).getD
      ((ssRight (business_position c) (d - c.start_date).toNat : Int) + (n - 1)).toNat 0))
  else
    if (ssLeft (business_position c) (d - c.start_date).toNat : Int) + n < 0 then none
    else some (c.univ.day ((business_position c).getD
      ((ssLeft (business_position c) (d - c.start_date).toNat : Int) + n).toNat 0))

/-- The Python `which: Union[str, int]` argument. -/
inductive Which where
  | str (s : String)
  | int (n : Int)
deriving DecidableEq

/-- `start_idx = np.flatnonzero(starts)` where `starts[0] = True` and
`starts[j] = key[j] != key[j-1]` for `j ≥ 1`. -/
def startIndices (key : List Int) : List Nat :=
  (List.range key.length).filter
    (fun j => decide (j = 0) || decide (key.getD j 0 ≠ key.getD (j - 1) 0))

/-- The `isinstance(which, int) and which >= 1` arm of
`Calendar._select_in_groups`: `nth = start_idx + (which - 1)`, kept where
`nth <= end_idx` (groups with fewer members contribute nothing). -/
def select_nth (pos start_idx end_idx : List Nat) (n : Int) : Option (List Nat) :=
  if 1 ≤ n then
    let nth := start_idx.map (fun j => j + (n - 1).toNat)
    some (((nth.zip end_idx).filter (fun p => decide (p.1 ≤ p.2))).map
      (fun p => pos.getD p.1 0))
  else none

/-- `Calendar._select_in_groups`: first/last/all/nth position of each
contiguous group of equal keys; errors on any other `which`. -/
def select_in_groups (pos : List Nat) (key : List Int) (which : Which) : Option (List Nat) :=
  if pos.length = 0 then some pos
  else if which = Which.str "all" then some pos
  else
    let start_idx := startIndices key
    if which = Which.str "first" then some (start_idx.map (fun j => pos.getD j 0))
    else
      let end_idx := (start_idx.drop 1).map (fun j => j - 1) ++ [pos.length - 1]
      if which = Which.str "last" then some (end_idx.map (fun j => pos.getD j 0))
      else
        match which with
        | Which.int n => select_nth pos start_idx end_idx n
        | _ => none

/-- The frequency dispatch shared by both schedule methods: the per-period
grouping key of each position, or an error for an unrecognized token. -/
def freq_key (u : DateUniverse) (frequency : String) (pos : List Nat) : Option (List Int) :=
  if frequency = "M" ∨ frequency = "month" ∨ frequency = "Month" ∨ frequency = "MONTH" then
    some (pos.map u.month_key)
  else if frequency = "Q" ∨ frequency = "quarter" ∨ frequency = "Quarter" ∨ frequency = "QUARTER" then
    some (pos.map (fun i => u.year i * 10 + u.quarter i))
  else if frequency = "S" ∨ frequency = "semester" ∨ frequency = "Semester" ∨ frequency = "SEMESTER" then
    some (pos.map (fun i => u.year i * 10 + u.semester i))
  else if frequency = "W" ∨ frequency = "week" ∨ frequency = "Week" ∨ frequency = "WEEK" then
    some (pos.map (fun i => u.iso_year i * 100 + u.week i))
  else if frequency = "Y" ∨ frequency = "year" ∨ frequency = "Year" ∨ frequency = "YEAR" then
    some (pos.map u.year)
  else none

/-- The stage shared by both schedule methods once their position array is
built: frequency dispatch to the grouping key, group selection, and the
mapping of the selected positions to dates. -/
def schedule_select (c : Calendar) (frequency : String) (which : Which)
    (pos : List Nat) : Option (List Int) :=
  match freq_key c.univ frequency pos with
  | none => none
  | some key => (select_in_groups pos key which).map (fun sel => sel.map c.univ.day)

/-- `Calendar.schedule_business`: select within the business positions of
the range, grouped by the frequency key. -/
def schedule_business (c : Calendar) (frequency : String) (which : Which)
    (s e : Option Int) : Option (List Int) :=
  match range_indices c s e with
  | none => none
  | some (i0, i1) =>
      let pos := business_pos_slice c i0 i1
      if pos.length = 0 then some []
      else schedule_select c frequency which pos

/-- The position array of `schedule_calendar`: every index of the range,
filtered to the requested weekday when one is given. -/
def calendar_pos (c : Calendar) (i0 i1 : Nat) (week_day : Option Int) : List Nat :=
  let pos := List.range' i0 (i1 + 1 - i0)
  match week_day with
  | none => pos
  | some w => pos.filter (fun i => decide (c.univ.weekday i = w))

/-- `Calendar.schedule_calendar`: optional weekday filter over every
calendar day of the range; grouping and selection are skipped (and the
frequency never inspected) when `which = "all"`. -/
def schedule_calendar (c : Calendar) (frequency : String) (week_day : Option Int)
    (which : Which) (s e : Option Int) : Option (List Int) :=
  match range_indices c s e with
  | none => none
  | some (i0, i1) =>
      let pos := calendar_pos c i0 i1 week_day
      if pos.length = 0 then some []
      else if which ≠ Which.str "all" then schedule_select c frequency which pos
      else some (pos.map c.univ.day)

/-- The default of the `week_day` parameter in the Python signature of
`schedule_calendar` (`week_day: Optional[int] = 1`). -/
def schedule_calendar_default_week_day : Option Int := some 1

/-- Follows the spec's words, for comparison with `schedule_calendar`:
"Omitting week_day (None) skips the weekday filter entirely" — the
grouping and first/last/all/nth selection applied over every calendar day
of the requested range, with no weekday filter. -/
def schedule_calendar_every_day (c : Calendar) (frequency : String) (which : Which)
    (s e : Option Int) : Option (List Int) :=
  match range_indices c s e with
  | none => none
  | some (i0, i1) =>
      let pos := List.range' i0 (i1 + 1 - i0)
      if pos.length = 0 then some []
      else if which ≠ Which.str "all" then schedule_select c frequency which pos
      else some (pos.map c.univ.day)

/-- One pass of `Calendar.override`: set `override_mask[locate(d)] = v` for
each date of the list, erroring on any date outside the universe. -/
def set_override_indices (u : DateUniverse) (ds : List Int) (v : Bool)
    (m : Nat → Bool) : Option (Nat → Bool) :=
  match ds with
  | [] => some m
  | d :: rest =>
      match u.locate d with
      | none => none
      | some i => set_override_indices u rest v (fun j => if j = i then v else m j)

/-- The `override_mask` of `Calendar.override`: all-false, then `True` at
each new business day, then `False` at each new non-business day. -/
def override_mask (u : DateUniverse) (newB newNB : Option (List Int)) :
    Option (Nat → Bool) :=
  let m0 : Nat → Bool := fun _ => false
  match (match newB with | none => some m0 | some ds => set_override_indices u ds true m0) with
  | none => none
  | some m1 =>
      match newNB with
      | none => some m1
      | some ds => set_override_indices u ds false m1

/-- `Calendar.override`: the new mask is
`np.where(override_mask, True, business_mask)`; `business_position` is the
derived function, so it is recomputed automatically. -/
def override (c : Calendar) (newB newNB : Option (List Int)) : Option Calendar :=
  (override_mask c.univ newB newNB).map (fun om =>
    { c with business_mask := fun i => if om i then true else c.business_mask i })

/-- The `CALENDAR_CODES` dict of mapping.py as an association list:
identifier → (provider kind, provider code). -/
def CALENDAR_CODES : List (String × String × Option String) :=
  [("DEFAULT", "weekend", none), ("WEEKEND", "weekend", none),
   ("WEEKENDS", "weekend", none), ("TRIVIAL", "weekend", none),
   ("NAIVE", "weekend", none),
   ("FR", "country", some "FR"), ("DE", "country", some "DE"),
   ("GB", "country", some "GB"), ("UK", "country", some "GB"),
   ("US", "country", some "US"), ("CA", "country", some "CA"),
   ("CH", "country", some "CH"), ("IT", "country", some "IT"),
   ("ES", "country", some "ES"), ("NL", "country", some "NL"),
   ("BE", "country", some "BE"), ("JP", "country", some "JP"),
   ("FRANCE", "country", some "FR"), ("GERMANY", "country", some "DE"),
   ("UNITED_KINGDOM", "country", some "GB"), ("UNITED_STATES", "country", some "US"),
   ("CANADA", "country", some "CA"), ("SWITZERLAND", "country", some "CH"),
   ("ITALY", "country", some "IT"), ("SPAIN", "country", some "ES"),
   ("NETHERLANDS", "country", some "NL"), ("BELGIUM", "country", some "BE"),
   ("JAPAN", "country", some "JP"),
   ("XPAR", "exchange", some "XPAR"), ("PARIS", "exchange", some "XPAR"),
   ("EURONEXT_PARIS", "exchange", some "XPAR"),
   ("XNYS", "exchange", some "XNYS"), ("NYSE", "exchange", some "XNYS"),
   ("NASDAQ", "exchange", some "XNYS"), ("NEW_YORK", "exchange", some "XNYS"),
   ("XETR", "exchange", some "XETR"), ("XETRA", "exchange", some "XETR"),
   ("FRANKFURT", "exchange", some "XETR"),
   ("XTSE", "exchange", some "XTSE"), ("TORONTO", "exchange", some "XTSE"),
   ("TSE", "exchange", some "XTSE"),
   ("XTYO", "exchange", some "XTYO"), ("TOKYO", "exchange", some "XTYO"),
   ("XHKG", "exchange", some "XHKG"), ("HONG_KONG", "exchange", some "XHKG"),
   ("EUR", "quantlib", some "TARGET"), ("ESTR", "quantlib", some "TARGET"),
   ("ESTER", "quantlib", some "TARGET"), ("€STR", "quantlib", some "TARGET"),
   ("€STER", "quantlib", some "TARGET"), ("ESTRON INDEX", "quantlib", some "TARGET"),
   ("ESTR INDEX", "quantlib", some "TARGET"), ("€STRON INDEX", "quantlib", some "TARGET"),
   ("ESTRON", "quantlib", some "TARGET"),
   ("SOFR", "quantlib", some "US_GOVIES"), ("SOFRRATE INDEX", "quantlib", some "US_GOVIES"),
   ("SOFR INDEX", "quantlib", some "US_GOVIES"), ("SOFRRATE", "quantlib", some "US_GOVIES"),
   ("SONIA INDEX", "quantlib", some "SONIA"), ("SONIO/N INDEX", "quantlib", some "SONIA"),
   ("SONIA", "quantlib", some "SONIA")]

/-- The registry lookup performed by `Calendar._create_mask`: the exact
dict membership test `code in CALENDAR_CODES` followed by
`CALENDAR_CODES[code]`; an absent key raises "Unknown calendar code". -/
def calendar_code_lookup (code : String) : Option (String × Option String) :=
  (CALENDAR_CODES.find? (fun kv => kv.1 == code)).map (fun kv => kv.2)

/-- The recognized frequency tokens of the two schedule methods
(statement helper). -/
def goodFreq (f : String) : Bool :=
  ["M", "month", "Month", "MONTH", "Q", "quarter", "Quarter", "QUARTER",
   "S", "semester", "Semester", "SEMESTER", "W", "week", "Week", "WEEK",
   "Y", "year", "Year", "YEAR"].contains f

/-- The recognized `which` values of `_select_in_groups`
(statement helper). -/
def goodWhich (w : Which) : Bool :=
  match w with
  | Which.str s => s == "all" || s == "first" || s == "last"
  | Which.int n => decide (1 ≤ n)

/-- Weekend-only demo calendar over 1970-01-01 (Thursday, day 0) to
1970-01-14 (Wednesday, day 13), used as the concrete input of witnesses.
Its business positions are [0, 1, 4, 5, 6, 7, 8, 11, 12, 13]. -/
def cDemo : Calendar := mkWeekendCalendar 0 13

/-! ### Facts about `business_position` and `searchsorted` -/

theorem locate_eq_some {u : DateUniverse} {d : Int} {i : Nat}
    (h : u.locate d = some i) :
    u.start64 + (i : Int) = d ∧ i < u.len ∧ u.start64 ≤ d ∧ d ≤ u.end64 := by
  unfold DateUniverse.locate at h
  by_cases hP : 0 ≤ d - u.start64 ∧ d - u.start64 < (u.len : Int)
  · rw [if_pos hP] at h
    injection h with h'
    unfold DateUniverse.len at *
    omega
  · rw [if_neg hP] at h
    exact Option.noConfusion h

theorem day_in_range {u : DateUniverse} {j : Nat} (h : j < u.len) :
    u.start64 ≤ u.day j ∧ u.day j ≤ u.end64 := by
  unfold DateUniverse.day DateUniverse.len at *
  omega

theorem business_position_sorted (c : Calendar) :
    (business_position c).Pairwise (· < ·) :=
  (List.pairwise_lt_range _).filter _

theorem mem_business_position {c : Calendar} {i : Nat} :
    i ∈ business_position c ↔ i < c.univ.len ∧ c.business_mask i = true := by
  simp [business_position, List.mem_filter, List.mem_range]

theorem sorted_take_ssRight (xs : List Nat) (hs : xs.Pairwise (· < ·)) (v : Nat) :
    xs.take (ssRight xs v) = xs.filter (fun x => decide (x ≤ v)) := by
  induction xs with
  | nil => rfl
  | cons a t ih =>
      rcases List.pairwise_cons.mp hs with ⟨ha, ht⟩
      by_cases hav : a ≤ v
      · have hf : (a :: t).filter (fun x => decide (x ≤ v)) =
            a :: t.filter (fun x => decide (x ≤ v)) := by
          simp [List.filter_cons, hav]
        rw [ssRight, hf, List.length_cons, List.take_succ_cons]
        exact congrArg (a :: ·) (ih ht)
      · have hnil : t.filter (fun x => decide (x ≤ v)) = [] := by
          rw [List.filter_eq_nil_iff]
          intro x hx
          have := ha x hx
          simp only [decide_eq_true_eq]
          omega
        have hf : (a :: t).filter (fun x => decide (x ≤ v)) = [] := by
          simp [List.filter_cons, hav, hnil]
        rw [ssRight, hf]
        rfl

theorem sorted_drop_ssLeft (xs : List Nat) (hs : xs.Pairwise (· < ·)) (v : Nat) :
    xs.drop (ssLeft xs v) = xs.filter (fun x => decide (v ≤ x)) := by
  induction xs with
  | nil => rfl
  | cons a t ih =>
      rcases List.pairwise_cons.mp hs with ⟨ha, ht⟩
      by_cases hav : a < v
      · have hfl : (a :: t).filter (fun x => decide (x < v)) =
            a :: t.filter (fun x => decide (x < v)) := by
          simp [List.filter_cons, hav]
        have hfr : (a :: t).filter (fun x => decide (v ≤ x)) =
            t.filter (fun x => decide (v ≤ x)) := by
          simp [List.filter_cons, show ¬ v ≤ a by omega]
        rw [ssLeft, hfl, List.length_cons, hfr, List.drop_succ_cons]
        exact ih ht
      · have hxlt : (a :: t).filter (fun x => decide (x < v)) = [] := by
          rw [List.filter_eq_nil_iff]
          intro x hx
          simp only [decide_eq_true_eq]
          rcases List.mem_cons.mp hx with h | h
          · omega
          · have := ha x h; omega
        have hxge : (a :: t).filter (fun x => decide (v ≤ x)) = a :: t := by
          rw [List.filter_eq_self]
          intro x hx
          simp only [decide_eq_true_eq]
          rcases List.mem_cons.mp hx with h | h
          · omega
          · have := ha x h; omega
        rw [ssLeft, hxlt, hxge]
        rfl

theorem slice_eq_filter (xs : List Nat) (hs : xs.Pairwise (· < ·)) {i0 i1 : Nat}
    (h01 : i0 ≤ i1) :
    (xs.take (ssRight xs i1)).drop (ssLeft xs i0) =
      xs.filter (fun x => decide (i0 ≤ x) && decide (x ≤ i1)) := by
  rw [sorted_take_ssRight xs hs i1]
  have hleft : ssLeft xs i0 = ssLeft (xs.filter (fun x => decide (x ≤ i1))) i0 := by
    unfold ssLeft
    rw [List.filter_filter]
    congr 1
    apply List.filter_congr
    intro x _
    by_cases h : x < i0
    · have h' : x ≤ i1 := by omega
      simp [h, h']
    · simp [h]
  rw [hleft, sorted_drop_ssLeft _ (hs.filter _) i0, List.filter_filter]

theorem ssLeft_getElem (xs : List Nat) (hs : xs.Pairwise (· < ·)) :
    ∀ (k : Nat) (hk : k < xs.length), ssLeft xs xs[k] = k := by
  induction xs with
  | nil => intro k hk; simp at hk
  | cons a t ih =>
      rcases List.pairwise_cons.mp hs with ⟨ha, ht⟩
      intro k hk
      match k with
      | 0 =>
          have hf : (a :: t).filter (fun x => decide (x < a)) = [] := by
            rw [List.filter_eq_nil_iff]
            intro x hx
            simp only [decide_eq_true_eq]
            rcases List.mem_cons.mp hx with h | h
            · omega
            · have := ha x h; omega
          show ssLeft (a :: t) a = 0
          rw [ssLeft, hf]
          rfl
      | k + 1 =>
          have hk' : k < t.length := by simpa using hk
          have hv : (a :: t)[k + 1] = t[k] := rfl
          have hav : a < t[k] := ha _ (List.getElem_mem hk')
          have hf : (a :: t).filter (fun x => decide (x < t[k])) =
              a :: t.filter (fun x => decide (x < t[k])) := by
            simp [List.filter_cons, hav]
          rw [hv, ssLeft, hf, List.length_cons]
          exact congrArg (· + 1) (ih ht k hk')

theorem ssRight_getElem (xs : List Nat) (hs : xs.Pairwise (· < ·)) :
    ∀ (k : Nat) (hk : k < xs.length), ssRight xs xs[k] = k + 1 := by
  induction xs with
  | nil => intro k hk; simp at hk
  | cons a t ih =>
      rcases List.pairwise_cons.mp hs with ⟨ha, ht⟩
      intro k hk
      match k with
      | 0 =>
          have hnil : t.filter (fun x => decide (x ≤ a)) = [] := by
            rw [List.filter_eq_nil_iff]
            intro x hx
            have := ha x hx
            simp only [decide_eq_true_eq]
            omega
          have hf : (a :: t).filter (fun x => decide (x ≤ a)) = [a] := by
            simp [List.filter_cons, hnil]
          show ssRight (a :: t) a = 1
          rw [ssRight, hf]
          rfl
      | k + 1 =>
          have hk' : k < t.length := by simpa using hk
          have hv : (a :: t)[k + 1] = t[k] := rfl
          have hav : a < t[k] := ha _ (List.getElem_mem hk')
          have hf : (a :: t).filter (fun x => decide (x ≤ t[k])) =
              a :: t.filter (fun x => decide (x ≤ t[k])) := by
            simp only [List.filter_cons]
            rw [if_pos]
            simp only [decide_eq_true_eq]
            omega
          rw [hv, ssRight, hf, List.length_cons]
          exact congrArg (· + 1) (ih ht k hk')

theorem ssLeft_le_length (xs : List Nat) (v : Nat) : ssLeft xs v ≤ xs.length :=
  List.length_filter_le _ _

theorem ssRight_le_length (xs : List Nat) (v : Nat) : ssRight xs v ≤ xs.length :=
  List.length_filter_le _ _

/-! ### Sortedness of the group-selection machinery -/

theorem pairwise_lt_range' (s n : Nat) : (List.range' s n).Pairwise (· < ·) := by
  rw [List.range'_eq_map_range]
  exact List.pairwise_map.mpr ((List.pairwise_lt_range n).imp (by omega))

theorem pairwise_map_getD {idx l : List Nat}
    (hidx : idx.Pairwise (· < ·)) (hbnd : ∀ j ∈ idx, j < l.length)
    (hl : l.Pairwise (· < ·)) :
    (idx.map (fun j => l.getD j 0)).Pairwise (· < ·) := by
  rw [List.pairwise_map]
  refine hidx.imp_of_mem ?_
  intro a b ha hb hab
  have hal := hbnd a ha
  have hbl := hbnd b hb
  rw [List.getD_eq_getElem l 0 hal, List.getD_eq_getElem l 0 hbl]
  have := List.pairwise_iff_get.mp hl ⟨a, hal⟩ ⟨b, hbl⟩ hab
  simpa [List.get_eq_getElem] using this

theorem startIndices_sorted (key : List Int) :
    (startIndices key).Pairwise (· < ·) :=
  (List.pairwise_lt_range _).filter _

theorem startIndices_bound {key : List Int} {j : Nat} (h : j ∈ startIndices key) :
    j < key.length := by
  have := (List.mem_filter.mp h).1
  simpa [List.mem_range] using this

theorem startIndices_eq_cons {key : List Int} (h : key ≠ []) :
    startIndices key =
      0 :: (List.range' 1 (key.length - 1)).filter
        (fun j => decide (j = 0) || decide (key.getD j 0 ≠ key.getD (j - 1) 0)) := by
  have hlen : key.length = (key.length - 1) + 1 := by
    have : key.length ≠ 0 := fun hc => h (List.length_eq_zero.mp hc)
    omega
  rw [startIndices, List.range_eq_range', hlen, List.range'_succ, List.filter_cons]
  simp

theorem pairwise_zip_left {α β : Type} {R : α → α → Prop} :
    ∀ {l₁ : List α} (_ : l₁.Pairwise R) (l₂ : List β),
      (l₁.zip l₂).Pairwise (fun p q => R p.1 q.1)
  | [], _, _ => List.Pairwise.nil
  | _ :: _, h, [] => by simp
  | a :: t, h, b :: s => by
      rcases List.pairwise_cons.mp h with ⟨ha, ht⟩
      refine List.pairwise_cons.mpr ⟨?_, pairwise_zip_left ht s⟩
      intro p hp
      exact ha p.1 (List.of_mem_zip hp).1

theorem select_in_groups_sorted {pos : List Nat} {key : List Int} {which : Which}
    {sel : List Nat} (hpos : pos.Pairwise (· < ·)) (hlen : key.length = pos.length)
    (hsel : select_in_groups pos key which = some sel) :
    sel.Pairwise (· < ·) := by
  unfold select_in_groups at hsel
  by_cases h0 : pos.length = 0
  · rw [if_pos h0] at hsel
    cases hsel
    exact hpos
  rw [if_neg h0] at hsel
  by_cases hall : which = Which.str "all"
  · rw [if_pos hall] at hsel
    cases hsel
    exact hpos
  rw [if_neg hall] at hsel
  have hkey0 : key ≠ [] := by
    intro hc
    apply h0
    rw [← hlen, hc]
    rfl
  have hsi := startIndices_sorted key
  by_cases hfirst : which = Which.str "first"
  · rw [if_pos hfirst] at hsel
    cases hsel
    exact pairwise_map_getD hsi (fun j hj => hlen ▸ startIndices_bound hj) hpos
  rw [if_neg hfirst] at hsel
  -- facts about the tail of startIndices and about end_idx
  obtain hcons := startIndices_eq_cons hkey0
  set t := (List.range' 1 (key.length - 1)).filter
    (fun j => decide (j = 0) || decide (key.getD j 0 ≠ key.getD (j - 1) 0)) with ht
  have hdrop : (startIndices key).drop 1 = t := by rw [hcons]; rfl
  have htmem : ∀ x ∈ t, 1 ≤ x ∧ x < key.length := by
    intro x hx
    have := List.mem_range'_1.mp (List.mem_filter.mp (ht ▸ hx)).1
    omega
  have htsorted : t.Pairwise (· < ·) := (pairwise_lt_range' _ _).filter _
  have hend_sorted : ((t.map (fun j => j - 1)) ++ [pos.length - 1]).Pairwise (· < ·) := by
    rw [List.pairwise_append]
    refine ⟨?_, List.pairwise_singleton _ _, ?_⟩
    · rw [List.pairwise_map]
      refine htsorted.imp_of_mem ?_
      intro a b ha hb hab
      have := htmem a ha
      omega
    · intro a ha b hb
      rcases List.mem_map.mp ha with ⟨x, hx, rfl⟩
      rcases List.mem_singleton.mp hb with rfl
      have := htmem x hx
      omega
  have hend_bnd : ∀ j ∈ (t.map (fun j => j - 1)) ++ [pos.length - 1], j < pos.length := by
    intro j hj
    rcases List.mem_append.mp hj with hj | hj
    · rcases List.mem_map.mp hj with ⟨x, hx, rfl⟩
      have := htmem x hx
      omega
    · rcases List.mem_singleton.mp hj with rfl
      omega
  by_cases hlast : which = Which.str "last"
  · rw [if_pos hlast] at hsel
    cases hsel
    exact pairwise_map_getD (hdrop ▸ hend_sorted) (hdrop ▸ hend_bnd) hpos
  rw [if_neg hlast] at hsel
  match which with
  | Which.str s => exact absurd hsel (by simp)
  | Which.int n =>
      have hsel' : select_nth pos (startIndices key)
          (((startIndices key).drop 1).map (fun j => j - 1) ++ [pos.length - 1]) n =
          some sel := hsel
      unfold select_nth at hsel'
      by_cases hn : 1 ≤ n
      · rw [if_pos hn] at hsel'
        cases hsel'
        set nth := (startIndices key).map (fun j => j + (n - 1).toNat) with hnth
        set endIdx := ((startIndices key).drop 1).map (fun j => j - 1) ++ [pos.length - 1]
          with hendIdx
        have hnth_sorted : nth.Pairwise (· < ·) := by
          rw [hnth, List.pairwise_map]
          exact hsi.imp (by omega)
        have hzip : ((nth.zip endIdx).filter (fun p => decide (p.1 ≤ p.2))).Pairwise
            (fun p q => p.1 < q.1) :=
          (pairwise_zip_left hnth_sorted endIdx).filter _
        have hbnd : ∀ p ∈ (nth.zip endIdx).filter (fun p => decide (p.1 ≤ p.2)),
            p.1 < pos.length := by
          intro p hp
          rcases List.mem_filter.mp hp with ⟨hpz, hple⟩
          have h2 : p.2 ∈ endIdx := (List.of_mem_zip hpz).2
          have hendt : endIdx = (t.map (fun j => j - 1)) ++ [pos.length - 1] := by
            rw [hendIdx, hdrop]
          have h2b : p.2 < pos.length := hend_bnd p.2 (hendt ▸ h2)
          simp only [decide_eq_true_eq] at hple
          omega
        have : ((nth.zip endIdx).filter (fun p => decide (p.1 ≤ p.2))).map
            (fun p => pos.getD p.1 0) =
            (((nth.zip endIdx).filter (fun p => decide (p.1 ≤ p.2))).map Prod.fst).map
            (fun j => pos.getD j 0) := by
          rw [List.map_map]
          rfl
        rw [this]
        refine pairwise_map_getD ?_ ?_ hpos
        · rw [List.pairwise_map]
          exact hzip
        · intro j hj
          rcases List.mem_map.mp hj with ⟨p, hp, rfl⟩
          exact hbnd p hp
      · rw [if_neg hn] at hsel'
        exact absurd hsel' (by simp)

/-- Mapping positions to dates (`days[i] = start + i`) keeps strict order. -/
theorem pairwise_map_day {u : DateUniverse} {l : List Nat}
    (h : l.Pairwise (· < ·)) : (l.map u.day).Pairwise (· < ·) := by
  rw [List.pairwise_map]
  refine h.imp ?_
  intro a b hab
  unfold DateUniverse.day
  omega

theorem business_pos_slice_sorted (c : Calendar) (i0 i1 : Nat) :
    (business_pos_slice c i0 i1).Pairwise (· < ·) :=
  List.Pairwise.sublist ((List.drop_sublist _ _).trans (List.take_sublist _ _))
    (business_position_sorted c)

theorem calendar_pos_sorted (c : Calendar) (i0 i1 : Nat) (wd : Option Int) :
    (calendar_pos c i0 i1 wd).Pairwise (· < ·) := by
  unfold calendar_pos
  cases wd with
  | none => exact pairwise_lt_range' _ _
  | some w => exact (pairwise_lt_range' _ _).filter _

/-! ### Facts about the frequency and selection validation -/

theorem freq_key_none_iff (u : DateUniverse) (f : String) (pos : List Nat) :
    freq_key u f pos = none ↔ goodFreq f = false := by
  unfold freq_key goodFreq
  split_ifs with h1 h2 h3 h4 h5 <;> simp <;> tauto

theorem freq_key_length {u : DateUniverse} {f : String} {pos : List Nat}
    {key : List Int} (h : freq_key u f pos = some key) : key.length = pos.length := by
  unfold freq_key at h
  split_ifs at h <;> cases h <;> simp

theorem select_none_of_bad_which {pos : List Nat} {key : List Int} {w : Which}
    (hpos : pos ≠ []) (hw : goodWhich w = false) :
    select_in_groups pos key w = none := by
  unfold select_in_groups
  rw [if_neg (fun hc => hpos (List.length_eq_zero.mp hc))]
  match w with
  | Which.str s =>
      simp only [goodWhich, Bool.or_eq_false_iff, beq_eq_false_iff_ne, ne_eq] at hw
      rw [if_neg (by simp [hw.1.1]), if_neg (by simp [hw.1.2]), if_neg (by simp [hw.2])]
  | Which.int n =>
      simp only [goodWhich, decide_eq_false_iff_not] at hw
      rw [if_neg (by simp), if_neg (by simp), if_neg (by simp)]
      show select_nth _ _ _ n = none
      unfold select_nth
      rw [if_neg hw]

theorem contains_eq_false_iff {l : List Nat} {i : Nat} :
    l.contains i = false ↔ i ∉ l := by
  rw [show l.contains i = l.elem i from rfl, List.elem_eq_mem]
  simp

/-! ### Claims -/

/-- C5: for a valid sub-range, the dates of `business_days` and
`non_business_days` are disjoint and together are exactly the calendar days
from `s` to `e` inclusive. -/
theorem C5_partition_of_range (c : Calendar) (s e : Int) (bd nbd : List Int)
    (hbd : business_days c (some s) (some e) = some bd)
    (hnbd : non_business_days c (some s) (some e) = some nbd) :
    (∀ x : Int, (x ∈ bd ∨ x ∈ nbd) ↔ (s ≤ x ∧ x ≤ e)) ∧
    (∀ x : Int, ¬(x ∈ bd ∧ x ∈ nbd)) := by
  unfold business_days at hbd
  unfold non_business_days at hnbd
  cases hr : range_indices c (some s) (some e) with
  | none =>
      rw [hr] at hbd
      exact Option.noConfusion hbd
  | some p =>
      obtain ⟨i0, i1⟩ := p
      rw [hr] at hbd hnbd
      have hbd2 : some ((business_pos_slice c i0 i1).map c.univ.day) = some bd := hbd
      have hnbd2 : some (((List.range' i0 (i1 + 1 - i0)).filter
          (fun i => !((business_position c).contains i))).map c.univ.day) = some nbd := hnbd
      injection hbd2 with hbd3
      injection hnbd2 with hnbd3
      -- decompose range_indices
      unfold range_indices at hr
      have hr2 : (match c.univ.locate ((some s).getD c.univ.start64),
          c.univ.locate ((some e).getD c.univ.end64) with
        | some a, some b => if b < a then none else some (a, b)
        | _, _ => none) = some (i0, i1) := hr
      simp only [Option.getD_some] at hr2
      cases hls : c.univ.locate s with
      | none => rw [hls] at hr2; exact Option.noConfusion hr2
      | some a =>
      cases hle : c.univ.locate e with
      | none => rw [hls, hle] at hr2; exact Option.noConfusion hr2
      | some b =>
      rw [hls, hle] at hr2
      have hr4 : (if b < a then none else some (a, b)) = some (i0, i1) := hr2
      by_cases hba : b < a
      · rw [if_pos hba] at hr4
        exact Option.noConfusion hr4
      rw [if_neg hba] at hr4
      injection hr4 with hr3
      injection hr3 with ha hb
      have ha2 : i0 = a := ha.symm
      have hb2 : i1 = b := hb.symm
      subst ha2
      subst hb2
      obtain ⟨hs_eq, hi0_lt, _, _⟩ := locate_eq_some hls
      obtain ⟨he_eq, hi1_lt, _, _⟩ := locate_eq_some hle
      have h01 : i0 ≤ i1 := by omega
      have hslice : business_pos_slice c i0 i1 =
          (business_position c).filter (fun x => decide (i0 ≤ x) && decide (x ≤ i1)) :=
        slice_eq_filter _ (business_position_sorted c) h01
      subst hbd3
      subst hnbd3
      constructor
      · intro x
        constructor
        · rintro (hx | hx)
          · rcases List.mem_map.mp hx with ⟨j, hj, rfl⟩
            rw [hslice] at hj
            rcases List.mem_filter.mp hj with ⟨_, hcond⟩
            simp only [Bool.and_eq_true, decide_eq_true_eq] at hcond
            unfold DateUniverse.day
            omega
          · rcases List.mem_map.mp hx with ⟨j, hj, rfl⟩
            rcases List.mem_filter.mp hj with ⟨hjr, _⟩
            have := List.mem_range'_1.mp hjr
            unfold DateUniverse.day
            omega
        · rintro ⟨hsx, hxe⟩
          have hx0 : 0 ≤ x - c.univ.start64 := by omega
          have hxval : c.univ.start64 + ((x - c.univ.start64).toNat : Int) = x := by omega
          have hxi : i0 ≤ (x - c.univ.start64).toNat ∧ (x - c.univ.start64).toNat ≤ i1 := by
            omega
          by_cases hmem : (x - c.univ.start64).toNat ∈ business_position c
          · left
            refine List.mem_map.mpr ⟨(x - c.univ.start64).toNat, ?_, ?_⟩
            · rw [hslice]
              refine List.mem_filter.mpr ⟨hmem, ?_⟩
              simp only [Bool.and_eq_true, decide_eq_true_eq]
              omega
            · unfold DateUniverse.day
              omega
          · right
            refine List.mem_map.mpr ⟨(x - c.univ.start64).toNat, ?_, ?_⟩
            · refine List.mem_filter.mpr ⟨?_, ?_⟩
              · exact List.mem_range'_1.mpr ⟨hxi.1, by omega⟩
              · rw [Bool.not_eq_true']
                exact contains_eq_false_iff.mpr hmem
            · unfold DateUniverse.day
              omega
      · rintro x ⟨hx1, hx2⟩
        rcases List.mem_map.mp hx1 with ⟨j1, hj1, he1⟩
        rcases List.mem_map.mp hx2 with ⟨j2, hj2, he2⟩
        have hj12 : j1 = j2 := by
          unfold DateUniverse.day at he1 he2
          omega
        subst hj12
        rw [hslice] at hj1
        have hmem1 := (List.mem_filter.mp hj1).1
        have hc2 := (List.mem_filter.mp hj2).2
        rw [Bool.not_eq_true'] at hc2
        exact contains_eq_false_iff.mp hc2 hmem1

/-- C5 witness: the partition at the sub-range [2, 9] of the demo calendar,
instantiated at the boundary date 9 (a Saturday). -/
theorem C5_partition_witness :
    (((9 : Int) ∈ ([4, 5, 6, 7, 8] : List Int) ∨ (9 : Int) ∈ ([2, 3, 9] : List Int)) ↔
      (2 ≤ (9 : Int) ∧ (9 : Int) ≤ 9)) ∧
    ¬((9 : Int) ∈ ([4, 5, 6, 7, 8] : List Int) ∧ (9 : Int) ∈ ([2, 3, 9] : List Int)) :=
  ⟨(C5_partition_of_range cDemo 2 9 [4, 5, 6, 7, 8] [2, 3, 9]
      (by decide) (by decide)).1 9,
   (C5_partition_of_range cDemo 2 9 [4, 5, 6, 7, 8] [2, 3, 9]
      (by decide) (by decide)).2 9⟩

/-- C1: the claim (and spec) say a date listed in `new_non_business_days` is
force-set non-business, so that `is_business` returns false afterwards.  The
code cannot do this: `override` combines with
`np.where(override_mask, True, business_mask)`, which only ever sets `True`,
so the `False` writes of the non-business pass are dead stores.  Evaluating
the code at the failing input: overriding 1970-01-06 (day 5, a Tuesday,
business under the weekend-only mask) to non-business leaves `is_business`
true, where the claim requires false. -/
theorem C1_override_non_business_is_dropped :
    (override cDemo none (some [5])).map (fun c => is_business c 5) = some (some true) ∧
    (override cDemo none (some [5])).map (fun c => business_position c) =
      some [0, 1, 4, 5, 6, 7, 8, 11, 12, 13] := by
  exact ⟨by decide, by decide⟩

/-- C3 (counterexample): the claim says any casing or whitespace variant of a
registered identifier resolves; but the lookup of `_create_mask` is an exact
dict lookup, so "default" and " FR " raise Unknown calendar code while
"DEFAULT" and "FR" resolve. -/
theorem C3_counterexample_case_sensitive :
    calendar_code_lookup "default" = none ∧
    calendar_code_lookup " FR " = none ∧
    calendar_code_lookup "DEFAULT" = some ("weekend", none) ∧
    calendar_code_lookup "FR" = some ("country", some "FR") := by
  exact ⟨by decide, by decide, by decide, by decide⟩

/-- C3 (amended): calendar-code lookup at construction is an exact string
match: an identifier resolves if and only if it is literally one of the
registered strings of `CALENDAR_CODES`; casing or whitespace variants fail
as unknown codes. -/
theorem C3_lookup_exact_match (code : String) :
    (calendar_code_lookup code).isSome = true ↔
      ∃ kv ∈ CALENDAR_CODES, kv.1 = code := by
  simp [calendar_code_lookup, List.find?_isSome]

/-- C4 (counterexample): the claim says omitting `week_day` (with its default
value, claimed to be None) skips the weekday filter; but the Python default is
`week_day = 1`, so the omitted-argument call keeps only Mondays (days 4 and 11
of the demo calendar) while the explicit `week_day=None` call returns every
calendar day. -/
theorem C4_counterexample_default_is_monday :
    schedule_calendar cDemo "W" schedule_calendar_default_week_day (Which.str "all")
        none none = some [4, 11] ∧
    schedule_calendar cDemo "W" none (Which.str "all") none none =
      some [0, 1, 2, 3, 4, 5, 6, 7, 8, 9, 10, 11, 12, 13] := by
  exact ⟨by decide, by decide⟩

/-- C4 (amended): passing `week_day = None` explicitly does skip the weekday
filter entirely: the result coincides with grouping and first/last/all/nth
selection applied over every calendar day of the requested range
(`schedule_calendar_every_day`).  The parameter's default, however, is
1 (Monday), not None. -/
theorem C4_none_skips_weekday_filter (c : Calendar) (frequency : String)
    (which : Which) (s e : Option Int) :
    schedule_calendar c frequency none which s e =
      schedule_calendar_every_day c frequency which s e := rfl

/-- Sortedness of the shared frequency-dispatch/selection stage. -/
theorem schedule_select_sorted {c : Calendar} {frequency : String} {which : Which}
    {pos : List Nat} {l : List Int} (hpos : pos.Pairwise (· < ·))
    (h : schedule_select c frequency which pos = some l) : l.Pairwise (· < ·) := by
  unfold schedule_select at h
  cases hfk : freq_key c.univ frequency pos with
  | none =>
      rw [hfk] at h
      exact Option.noConfusion h
  | some key =>
      rw [hfk] at h
      have h2 : (select_in_groups pos key which).map
          (fun sel => sel.map c.univ.day) = some l := h
      cases hsel : select_in_groups pos key which with
      | none =>
          rw [hsel] at h2
          exact Option.noConfusion h2
      | some sel =>
          rw [hsel] at h2
          injection h2 with h3
          rw [← h3]
          exact pairwise_map_day (select_in_groups_sorted hpos (freq_key_length hfk) hsel)

/-- C10: every date list returned by `business_days`, `non_business_days`,
`schedule_business` or `schedule_calendar` is strictly increasing. -/
theorem C10_outputs_strictly_increasing (c : Calendar) (s e : Option Int) :
    (∀ bd, business_days c s e = some bd → bd.Pairwise (· < ·)) ∧
    (∀ nbd, non_business_days c s e = some nbd → nbd.Pairwise (· < ·)) ∧
    (∀ frequency which l, schedule_business c frequency which s e = some l →
      l.Pairwise (· < ·)) ∧
    (∀ frequency week_day which l,
      schedule_calendar c frequency week_day which s e = some l →
      l.Pairwise (· < ·)) := by
  refine ⟨?_, ?_, ?_, ?_⟩
  · intro bd h
    unfold business_days at h
    cases hr : range_indices c s e with
    | none =>
        rw [hr] at h
        exact Option.noConfusion h
    | some p =>
        obtain ⟨i0, i1⟩ := p
        rw [hr] at h
        have h2 : some ((business_pos_slice c i0 i1).map c.univ.day) = some bd := h
        injection h2 with h3
        rw [← h3]
        exact pairwise_map_day (business_pos_slice_sorted c i0 i1)
  · intro nbd h
    unfold non_business_days at h
    cases hr : range_indices c s e with
    | none =>
        rw [hr] at h
        exact Option.noConfusion h
    | some p =>
        obtain ⟨i0, i1⟩ := p
        rw [hr] at h
        have h2 : some (((List.range' i0 (i1 + 1 - i0)).filter
            (fun i => !((business_position c).contains i))).map c.univ.day) = some nbd := h
        injection h2 with h3
        rw [← h3]
        exact pairwise_map_day ((pairwise_lt_range' _ _).filter _)
  · intro frequency which l h
    unfold schedule_business at h
    cases hr : range_indices c s e with
    | none =>
        rw [hr] at h
        exact Option.noConfusion h
    | some p =>
        obtain ⟨i0, i1⟩ := p
        rw [hr] at h
        have h2 : (if (business_pos_slice c i0 i1).length = 0 then some []
            else schedule_select c frequency which (business_pos_slice c i0 i1)) =
            some l := h
        by_cases h0 : (business_pos_slice c i0 i1).length = 0
        · rw [if_pos h0] at h2
          injection h2 with h3
          rw [← h3]
          exact List.Pairwise.nil
        · rw [if_neg h0] at h2
          exact schedule_select_sorted (business_pos_slice_sorted c i0 i1) h2
  · intro frequency week_day which l h
    unfold schedule_calendar at h
    cases hr : range_indices c s e with
    | none =>
        rw [hr] at h
        exact Option.noConfusion h
    | some p =>
        obtain ⟨i0, i1⟩ := p
        rw [hr] at h
        have h2 : (if (calendar_pos c i0 i1 week_day).length = 0 then some []
            else if which ≠ Which.str "all" then
              schedule_select c frequency which (calendar_pos c i0 i1 week_day)
            else some ((calendar_pos c i0 i1 week_day).map c.univ.day)) = some l := h
        by_cases h0 : (calendar_pos c i0 i1 week_day).length = 0
        · rw [if_pos h0] at h2
          injection h2 with h3
          rw [← h3]
          exact List.Pairwise.nil
        · rw [if_neg h0] at h2
          by_cases hall : which ≠ Which.str "all"
          · rw [if_pos hall] at h2
            exact schedule_select_sorted (calendar_pos_sorted c i0 i1 week_day) h2
          · rw [if_neg hall] at h2
            injection h2 with h3
            rw [← h3]
            exact pairwise_map_day (calendar_pos_sorted c i0 i1 week_day)

/-- C10 witness: the four output lists of the demo calendar are strictly
increasing. -/
theorem C10_outputs_witness :
    ([0, 1, 4, 5, 6, 7, 8, 11, 12, 13] : List Int).Pairwise (· < ·) ∧
    ([2, 3, 9, 10] : List Int).Pairwise (· < ·) ∧
    ([0, 4, 11] : List Int).Pairwise (· < ·) ∧
    ([4, 11] : List Int).Pairwise (· < ·) :=
  ⟨(C10_outputs_strictly_increasing cDemo none none).1 _ (by decide),
   (C10_outputs_strictly_increasing cDemo none none).2.1 _ (by decide),
   (C10_outputs_strictly_increasing cDemo none none).2.2.1 "W" (Which.str "first") _
     (by decide),
   (C10_outputs_strictly_increasing cDemo none none).2.2.2 "W" (some 1) (Which.str "all") _
     (by decide)⟩

/-- C2 (counterexample): the claim says both schedule methods fail on an
unrecognized frequency for all values of the other arguments, including
`which = "all"`; but `schedule_calendar` with `which = "all"` never inspects
the frequency and succeeds, and `schedule_business` over a range with no
business day (here the weekend 1970-01-10/11) returns `[]` without
validating either argument. -/
theorem C2_counterexample_validation_skipped :
    schedule_calendar cDemo "BOGUS" (some 1) (Which.str "all") none none = some [4, 11] ∧
    schedule_business cDemo "BOGUS" (Which.str "first") (some 9) (some 10) = some [] := by
  exact ⟨by decide, by decide⟩

/-- C2 (amended): provided the selected position array is nonempty, both
schedule methods fail on an unrecognized frequency token or an unrecognized
`which` value — except that `schedule_calendar` with `which = "all"` skips
the frequency validation (and empty selections return `[]` without any
validation). -/
theorem C2_schedule_validation (c : Calendar) (frequency : String) (which : Which)
    (s e : Option Int) (i0 i1 : Nat) (week_day : Option Int)
    (hr : range_indices c s e = some (i0, i1))
    (hbad : goodFreq frequency = false ∨ goodWhich which = false) :
    (business_pos_slice c i0 i1 ≠ [] →
      schedule_business c frequency which s e = none) ∧
    (calendar_pos c i0 i1 week_day ≠ [] → which ≠ Which.str "all" →
      schedule_calendar c frequency week_day which s e = none) := by
  have hsel : ∀ pos : List Nat, pos ≠ [] →
      schedule_select c frequency which pos = none := by
    intro pos hpos
    rcases hbad with hf | hw
    · unfold schedule_select
      rw [(freq_key_none_iff c.univ frequency pos).mpr hf]
    · unfold schedule_select
      cases hfk : freq_key c.univ frequency pos with
      | none => rfl
      | some key =>
          show (select_in_groups pos key which).map (fun sel => sel.map c.univ.day) = none
          rw [select_none_of_bad_which hpos hw]
          rfl
  constructor
  · intro hpos
    unfold schedule_business
    rw [hr]
    show (if (business_pos_slice c i0 i1).length = 0 then some []
        else schedule_select c frequency which (business_pos_slice c i0 i1)) = none
    rw [if_neg (fun hc => hpos (List.length_eq_zero.mp hc))]
    exact hsel _ hpos
  · intro hpos hall
    unfold schedule_calendar
    rw [hr]
    show (if (calendar_pos c i0 i1 week_day).length = 0 then some []
        else if which ≠ Which.str "all" then
          schedule_select c frequency which (calendar_pos c i0 i1 week_day)
        else some ((calendar_pos c i0 i1 week_day).map c.univ.day)) = none
    rw [if_neg (fun hc => hpos (List.length_eq_zero.mp hc)), if_pos hall]
    exact hsel _ hpos

/-- C2 witness: with the recognized-token validation reachable (nonempty
positions, `which ≠ "all"`), the bogus frequency makes both methods fail. -/
theorem C2_schedule_validation_witness :
    schedule_business cDemo "BOGUS" (Which.str "first") none none = none ∧
    schedule_calendar cDemo "BOGUS" (some 1) (Which.str "first") none none = none := by
  have h := C2_schedule_validation cDemo "BOGUS" (Which.str "first") none none 0 13
    (some 1) (by decide) (Or.inl (by decide))
  exact ⟨h.1 (by decide), h.2 (by decide) (by decide)⟩

/-- C6: starting from a business day `d`, every successful offset by `n`
business days is inverted exactly by the offset by `-n`: the round trip
returns `d` itself. -/
theorem C6_offset_round_trip (c : Calendar) (d n d2 : Int)
    (hb : is_business c d = some true)
    (ho : offset_business_days c d n = some d2) :
    offset_business_days c d2 (-n) = some d := by
  unfold is_business at hb
  cases hl : c.univ.locate d with
  | none =>
      rw [hl] at hb
      exact Option.noConfusion hb
  | some i =>
  rw [hl] at hb
  have hb2 : some (c.business_mask i) = some true := hb
  injection hb2 with hbi
  obtain ⟨hd_eq, hi_lt, hd_ge, hd_le⟩ := locate_eq_some hl
  have himem : i ∈ business_position c := mem_business_position.mpr ⟨hi_lt, hbi⟩
  obtain ⟨⟨r, hr⟩, hget⟩ := List.mem_iff_get.mp himem
  rw [List.get_eq_getElem] at hget
  have hsorted := business_position_sorted c
  have hssl : ssLeft (business_position c) i = r := by
    rw [← hget]
    exact ssLeft_getElem _ hsorted r hr
  have hssr : ssRight (business_position c) i = r + 1 := by
    rw [← hget]
    exact ssRight_getElem _ hsorted r hr
  have hbound : ¬(d < c.start_date ∨ c.end_date < d) := by
    unfold Calendar.start_date Calendar.end_date
    omega
  have hieq : (d - c.start_date).toNat = i := by
    unfold Calendar.start_date
    omega
  unfold offset_business_days at ho
  rw [if_neg hbound, hieq] at ho
  by_cases hn0 : n = 0
  · rw [if_pos hn0] at ho
    injection ho with hd2
    subst hd2
    subst hn0
    rw [neg_zero]
    unfold offset_business_days
    rw [if_neg hbound, if_pos rfl]
  · rw [if_neg hn0] at ho
    by_cases hnpos : 0 < n
    · -- forward offset, inverted by a backward offset
      rw [if_pos hnpos, hssr] at ho
      by_cases hkbig : ((business_position c).length : Int) ≤ ((r + 1 : Nat) : Int) + (n - 1)
      · rw [if_pos hkbig] at ho
        exact Option.noConfusion ho
      rw [if_neg hkbig] at ho
      injection ho with hd2
      set K : Nat := (((r + 1 : Nat) : Int) + (n - 1)).toNat with hKdef
      have hKlt : K < (business_position c).length := by omega
      rw [List.getD_eq_getElem _ 0 hKlt] at hd2
      subst hd2
      have hjmem : (business_position c)[K] ∈ business_position c :=
        List.getElem_mem hKlt
      have hjlt : (business_position c)[K] < c.univ.len :=
        (mem_business_position.mp hjmem).1
      have hbound2 : ¬(c.univ.day ((business_position c)[K]) < c.start_date ∨
          c.end_date < c.univ.day ((business_position c)[K])) := by
        have := day_in_range hjlt
        unfold Calendar.start_date Calendar.end_date
        omega
      have hloc2 : (c.univ.day ((business_position c)[K]) - c.start_date).toNat =
          (business_position c)[K] := by
        unfold DateUniverse.day Calendar.start_date
        omega
      have hssl2 : ssLeft (business_position c) ((business_position c)[K]) = K :=
        ssLeft_getElem _ hsorted K hKlt
      unfold offset_business_days
      rw [if_neg hbound2, if_neg (show ¬(-n = 0) by omega),
        if_neg (show ¬(0 < -n) by omega), hloc2, hssl2,
        if_neg (show ¬((K : Int) + -n < 0) by omega)]
      have hback : ((K : Int) + -n).toNat = r := by omega
      rw [hback, List.getD_eq_getElem _ 0 hr, hget]
      unfold DateUniverse.day
      exact congrArg some (by omega)
    · -- backward offset, inverted by a forward offset
      rw [if_neg hnpos, hssl] at ho
      by_cases hkneg : ((r : Nat) : Int) + n < 0
      · rw [if_pos hkneg] at ho
        exact Option.noConfusion ho
      rw [if_neg hkneg] at ho
      injection ho with hd2
      set K : Nat := (((r : Nat) : Int) + n).toNat with hKdef
      have hKlt : K < (business_position c).length := by omega
      rw [List.getD_eq_getElem _ 0 hKlt] at hd2
      subst hd2
      have hjmem : (business_position c)[K] ∈ business_position c :=
        List.getElem_mem hKlt
      have hjlt : (business_position c)[K] < c.univ.len :=
        (mem_business_position.mp hjmem).1
      have hbound2 : ¬(c.univ.day ((business_position c)[K]) < c.start_date ∨
          c.end_date < c.univ.day ((business_position c)[K])) := by
        have := day_in_range hjlt
        unfold Calendar.start_date Calendar.end_date
        omega
      have hloc2 : (c.univ.day ((business_position c)[K]) - c.start_date).toNat =
          (business_position c)[K] := by
        unfold DateUniverse.day Calendar.start_date
        omega
      have hssr2 : ssRight (business_position c) ((business_position c)[K]) = K + 1 :=
        ssRight_getElem _ hsorted K hKlt
      unfold offset_business_days
      rw [if_neg hbound2, if_neg (show ¬(-n = 0) by omega),
        if_pos (show 0 < -n by omega), hloc2, hssr2,
        if_neg (show ¬(((business_position c).length : Int) ≤
          ((K + 1 : Nat) : Int) + (-n - 1)) by omega)]
      have hback : (((K + 1 : Nat) : Int) + (-n - 1)).toNat = r := by omega
      rw [hback, List.getD_eq_getElem _ 0 hr, hget]
      unfold DateUniverse.day
      exact congrArg some (by omega)

/-- C6 witness: on the demo calendar, day 4 (Monday) offset forward by 3
business days gives day 7 (Thursday), and offsetting back by 3 returns 4. -/
theorem C6_offset_round_trip_witness : offset_business_days cDemo 7 (-3) = some 4 :=
  C6_offset_round_trip cDemo 4 3 7 (by decide) (by decide)

/-- C7: `days_between` on a one-day range in calendar mode returns 1 with
inclusive = "both" and 0 with inclusive = "none", and every successful
`days_between` call returns a non-negative count. -/
theorem C7_days_between_point_and_nonneg :
    (∀ (c : Calendar) (d : Int) (i : Nat), c.univ.locate d = some i →
      days_between c (some d) (some d) "calendar" "both" = some 1 ∧
      days_between c (some d) (some d) "calendar" "none" = some 0) ∧
    (∀ (c : Calendar) (s e : Option Int) (type inclusive : String) (k : Int),
      days_between c s e type inclusive = some k → 0 ≤ k) := by
  constructor
  · intro c d i hl
    constructor
    · unfold days_between
      simp only [Option.getD_some]
      rw [hl]
      show days_between_core c i i "calendar" "both" = some 1
      unfold days_between_core
      rw [if_neg (lt_irrefl i), show inclusive_flags "both" = some (true, true) from by decide]
      show (if "calendar" = "calendar"
          then some (max ((i : Int) - (i : Int) + 1) 0) else _) = some 1
      rw [if_pos rfl]
      norm_num
    · unfold days_between
      simp only [Option.getD_some]
      rw [hl]
      show days_between_core c i i "calendar" "none" = some 0
      unfold days_between_core
      rw [if_neg (lt_irrefl i), show inclusive_flags "none" = some (false, false) from by decide]
      show (if "calendar" = "calendar"
          then some (max ((i : Int) - (i : Int) + 1 - 1 - 1) 0) else _) = some 0
      rw [if_pos rfl]
      norm_num
  · intro c s e type inclusive k h
    unfold days_between at h
    have h2 : (match c.univ.locate (s.getD c.start_date),
        c.univ.locate (e.getD c.end_date) with
      | some i1, some i2 => days_between_core c i1 i2 type inclusive
      | _, _ => none) = some k := h
    cases o1 : c.univ.locate (s.getD c.start_date) with
    | none =>
        rw [o1] at h2
        exact Option.noConfusion h2
    | some i1 =>
        cases o2 : c.univ.locate (e.getD c.end_date) with
        | none =>
            rw [o1, o2] at h2
            exact Option.noConfusion h2
        | some i2 =>
            rw [o1, o2] at h2
            have h' : days_between_core c i1 i2 type inclusive = some k := h2
            unfold days_between_core at h'
            repeat' split at h'
            all_goals
              first
                | exact Option.noConfusion h'
                | (injection h' with hk; subst hk; exact le_max_right _ _)

/-- C7 witness: the two point counts and the non-negativity, at day 4 of the
demo calendar. -/
theorem C7_days_between_witness :
    (days_between cDemo (some 4) (some 4) "calendar" "both" = some 1 ∧
     days_between cDemo (some 4) (some 4) "calendar" "none" = some 0) ∧ (0 : Int) ≤ 1 :=
  ⟨C7_days_between_point_and_nonneg.1 cDemo 4 4 (by decide),
   C7_days_between_point_and_nonneg.2 cDemo (some 4) (some 4) "calendar" "both" 1 (by decide)⟩

/-- C8: for every in-universe date, offsetting by 0 business days returns the
date itself unchanged, whether or not it is a business day. -/
theorem C8_offset_zero_is_identity (c : Calendar) (d : Int)
    (h1 : c.start_date ≤ d) (h2 : d ≤ c.end_date) :
    offset_business_days c d 0 = some d := by
  unfold offset_business_days
  rw [if_neg (by omega)]
  simp

/-- C8 witness: day 2 of the demo calendar is a Saturday (non-business), and
the 0 offset still returns it unchanged. -/
theorem C8_offset_zero_witness : offset_business_days cDemo 2 0 = some 2 :=
  C8_offset_zero_is_identity cDemo 2 (by decide) (by decide)

/-- C9: `override` is idempotent: applying the same override to the result of
a first identical override returns that first result unchanged (masks, and
hence the derived `business_position`, are identical), for every pair of
argument lists; both calls fail together on invalid arguments. -/
theorem C9_override_idempotent (c : Calendar) (nb nnb : Option (List Int)) :
    (override c nb nnb).bind (fun c1 => override c1 nb nnb) = override c nb nnb := by
  unfold override
  cases h : override_mask c.univ nb nnb with
  | none => simp
  | some om =>
      simp only [Option.map_some', Option.some_bind]
      show (override_mask c.univ nb nnb).map _ = _
      rw [h]
      simp only [Option.map_some', Option.some.injEq]
      congr 1
      funext i
      by_cases hom : om i <;> simp [hom]

end BetterCalendar
